import Mathlib

/-!
# Verification of the kmrc-backend retrieval core

This file embeds, as Lean definitions, the retrieval core of the kmrc-backend
repository: the text normalizer (`sanitizeContent` from
`src/utils/sanitizer.js`), the chunker (`chunkText`), the in-memory vector
store with its id counter and `clear` operation, the `/ingest` loop, the
`/ask` selection pipeline, the `VertexDB.search` ranking, and the citation
(`sources`) assembly.  JS strings are embedded as `List Nat` (UTF-16 code
units) where individual character classes matter, and as `String` elsewhere;
JS numbers used as similarity scores are abstracted to `ℚ` via an explicit
scoring-function parameter (the code computes them with floating-point cosine
similarity over vectors fetched from a network service; every claim below is
about the selection/ordering structure, which is independent of the numeric
values).  `Array.prototype.sort` with the comparator
`(a, b) => b.score - a.score` is embedded as a stable descending sort
(ECMAScript 2019 requires sort stability), concretely Mathlib's
`List.insertionSort` with the relation `scoreGE`.
-/

open List

/-! ## Text normalizer: `sanitizeContent` (src/utils/sanitizer.js)

```js
exports.sanitizeContent = (text) => {
  return text
    .replace(/[^\x20-\x7E\x0A\x0D\x09]/g, '') // Remove non-printable
    .replace(/\s+/g, ' ') // Normalize whitespace
    .trim();
};
```
-/

/-- The character class kept by the first `replace`: the complement of
`[^\x20-\x7E\x0A\x0D\x09]`, i.e. printable ASCII plus LF, CR and TAB. -/
def keptChar (c : ℕ) : Bool :=
  (decide (32 ≤ c) && decide (c ≤ 126)) || c == 10 || c == 13 || c == 9

/-- The ECMAScript `\s` character class (WhiteSpace ∪ LineTerminator), by
UTF-16 code unit: TAB LF VT FF CR SP NBSP OGHAM, U+2000–U+200A, LS, PS,
NNBSP, MMSP, IDEOGRAPHIC SPACE, BOM. -/
def jsWs (c : ℕ) : Bool :=
  c == 9 || c == 10 || c == 11 || c == 12 || c == 13 || c == 32 ||
  c == 160 || c == 5760 || (decide (8192 ≤ c) && decide (c ≤ 8202)) ||
  c == 8232 || c == 8233 || c == 8239 || c == 8287 || c == 12288 || c == 65279

/-- One left-to-right pass of `replace(/\s+/g, ' ')`: the first character of
each maximal `\s` run is emitted as a single space (32), the rest of the run
is dropped, and every other character passes through unchanged.  The flag
records whether the scan is currently inside a `\s` run. -/
def collapseWsGo : Bool → List ℕ → List ℕ
  | _, [] => []
  | inRun, c :: cs =>
    if jsWs c then
      if inRun then collapseWsGo true cs
      else 32 :: collapseWsGo true cs
    else c :: collapseWsGo false cs

/-- `replace(/\s+/g, ' ')`: every maximal run of `\s` characters becomes a
single space; all other characters pass through unchanged. -/
def collapseWs (l : List ℕ) : List ℕ :=
  collapseWsGo false l

/-- `String.prototype.trim()`: remove `\s` characters from both ends. -/
def trimWs (l : List ℕ) : List ℕ :=
  ((l.dropWhile jsWs).reverse.dropWhile jsWs).reverse

/-- `sanitizeContent` on a (defined) string: strip characters outside
`\x20-\x7E\x0A\x0D\x09`, collapse whitespace runs to single spaces, trim. -/
def sanitizeContent (l : List ℕ) : List ℕ :=
  trimWs (collapseWs (l.filter keptChar))

/-- The argument of the JS function `sanitizeContent`: either a string or
`undefined` (the function has a single parameter and no default). -/
inductive JsArg where
  | undef : JsArg
  | str : List ℕ → JsArg
deriving DecidableEq

/-- Calling `sanitizeContent(text)` in JS: when `text` is `undefined`, the
very first member access `text.replace` throws a `TypeError`; otherwise the
three chained calls run and the result is returned. -/
def sanitizeContentCall : JsArg → Except String (List ℕ)
  | .undef => .error "TypeError: Cannot read properties of undefined"
  | .str l => .ok (sanitizeContent l)

/-! ## Chunker: `chunkText` (src/unnamed/part_000 lines 56-69, src/server.js)

```js
function chunkText(text, size = CHUNK_SIZE, overlap = CHUNK_OVERLAP) {
  if (!text) return [];
  const chunks = [];
  let i = 0;
  while (i < text.length) {
    const end = Math.min(i + size, text.length);
    const chunk = text.slice(i, end);
    chunks.push(chunk);
    if (end === text.length) break;
    i = end - overlap;
    if (i < 0) i = 0;
  }
  return chunks;
}
```
-/

/-- JS `text.slice(i, e)` for `0 ≤ i ≤ e`: the code units in positions
`[i, e)` (positions past the end are simply absent). -/
def sliceJS (l : List Char) (i e : ℕ) : List Char :=
  (l.take e).drop i

/-- One `while` iteration of `chunkText`, with an explicit iteration budget.
When `overlap < size`, the loop index `i` strictly increases each iteration,
so at most `text.length` iterations ever run and a budget of `text.length`
is never exhausted (the lemma `chunkTextAux_congr` below makes the budget
irrelevant); when `size ≤ overlap` and the text is long enough the JS loop
does not terminate at all, a case outside every claim. The step
`i = end - overlap; if (i < 0) i = 0;` is truncated subtraction on `ℕ`. -/
def chunkTextAux (text : List Char) (size overlap : ℕ) : ℕ → ℕ → List (List Char)
  | _, 0 => []
  | i, fuel + 1 =>
    if i < text.length then
      let e := min (i + size) text.length
      if e = text.length then [sliceJS text i e]
      else sliceJS text i e :: chunkTextAux text size overlap (e - overlap) fuel
    else []

/-- `chunkText(text, size, overlap)`: the full loop starting at `i = 0`
(the guard `if (!text) return []` coincides with the loop not running on
empty text). -/
def chunkText (text : List Char) (size overlap : ℕ) : List (List Char) :=
  chunkTextAux text size overlap 0 text.length

/-- Modelled from the spec's words, for comparison with `chunkText`
(claim C2): start at offset 0; each chunk is `text[offset : offset+size]`;
the next offset is `offset + size - overlap`, clamped to never go negative
(truncated subtraction); emission stops with the chunk whose end equals the
text length. -/
def specChunksAux (text : List Char) (size overlap : ℕ) : ℕ → ℕ → List (List Char)
  | _, 0 => []
  | off, fuel + 1 =>
    if off < text.length then
      if text.length ≤ off + size then [sliceJS text off (off + size)]
      else sliceJS text off (off + size) ::
        specChunksAux text size overlap (off + size - overlap) fuel
    else []

/-- The chunk sequence described by the specification, from offset 0. -/
def specChunks (text : List Char) (size overlap : ℕ) : List (List Char) :=
  specChunksAux text size overlap 0 text.length

/-! ## Shared string helpers for the tag filters

`toLowerCase()` on the tag strings (ASCII lowering; the tags in this code
base are ASCII identifiers such as "HVAC"), and `String.prototype.includes`
(substring containment). -/

/-- ASCII `toLowerCase` on one character. -/
def lowerChar (c : Char) : Char :=
  if 'A' ≤ c ∧ c ≤ 'Z' then Char.ofNat (c.toNat + 32) else c

/-- ASCII `toLowerCase` on a string. -/
def lowerStr (s : String) : String :=
  ⟨s.data.map lowerChar⟩

/-- Does `l` start with `pat`? -/
def leadsWith : List Char → List Char → Bool
  | [], _ => true
  | _ :: _, [] => false
  | p :: ps, c :: cs => p == c && leadsWith ps cs

/-- Does `l` contain `pat` as a contiguous run? -/
def containsSeq (pat : List Char) : List Char → Bool
  | [] => pat.isEmpty
  | c :: cs => leadsWith pat (c :: cs) || containsSeq pat cs

/-- JS `hay.includes(pat)`. -/
def strIncludes (hay pat : String) : Bool :=
  containsSeq pat.data hay.data

/-! ## The in-memory vector store of src/unnamed/part_000

`VECTOR_STORE` holds records
`{ id, fileName, mime, system, subsystem, meta, chunk, embedding, sourceId, position }`;
the fields relevant to the claims are kept. -/

/-- One `VECTOR_STORE` record (claim-relevant fields). -/
structure VItem where
  id : ℕ
  fileName : String
  system : String
  subsystem : String
  chunk : String
  embedding : List ℚ
  position : ℕ
deriving DecidableEq

/-- The mutations of `VECTOR_STORE` / `NEXT_ID` exercised by the claims:
a push during ingestion (`VECTOR_STORE.push({ id: NEXT_ID++, ... })`) and
the `/clear` endpoint (`VECTOR_STORE.length = 0; NEXT_ID = 1;`). -/
inductive StoreOp where
  | add : String → StoreOp
  | clear : StoreOp
deriving DecidableEq

/-- A record as pushed for chunk text `c` when `NEXT_ID` is `n` (the other
fields play no role in the id claims). -/
def mkVItem (n : ℕ) (c : String) : VItem :=
  ⟨n, "", "", "", c, [], 0⟩

/-- Run a sequence of store operations from a given
`(VECTOR_STORE, NEXT_ID)` state, also recording the id assigned by each
push, in order.  `add` pushes with the current `NEXT_ID` and increments it;
`clear` empties the store and resets `NEXT_ID` to 1. -/
def runTrace : List VItem × ℕ → List StoreOp → (List VItem × ℕ) × List ℕ
  | st, [] => (st, [])
  | (store, n), .add c :: ops =>
    let r := runTrace (store ++ [mkVItem n c], n + 1) ops
    (r.1, n :: r.2)
  | _, .clear :: ops => runTrace ([], 1) ops

/-- The ids assigned over the store's lifetime by a sequence of operations,
starting from the initial state (`VECTOR_STORE = []`, `NEXT_ID = 1`). -/
def assignedIds (ops : List StoreOp) : List ℕ :=
  (runTrace ([], 1) ops).2

/-! ## The `/ingest` chunk loop of src/unnamed/part_000 (lines 186-228)

```js
const chunks = chunkText(raw);
for (let i = 0; i < chunks.length; i++) {
  const chunk = chunks[i];
  const emb = await geminiEmbed(chunk);   // throws on upstream failure
  VECTOR_STORE.push({ id: NEXT_ID++, ..., chunk, embedding: emb, position: i });
  added++;
}
```
A `geminiEmbed` throw escapes the loop to the request-level `try/catch`,
which answers 500 without an `added` count; pushes already performed stay in
`VECTOR_STORE`. -/

/-- State threaded through the ingest loop. `aborted` records that an embed
call threw (the handler then returns the 500 error; no `added` count is
reported and no further chunk is processed). -/
structure IngestState where
  store : List VItem
  nextId : ℕ
  added : ℕ
  aborted : Bool
deriving DecidableEq

/-- The `/ingest` chunk loop for one document, with the embedding service as
an explicit fallible oracle `embed`. -/
def ingestChunks (embed : String → Except String (List ℚ))
    (fileName system subsystem : String) :
    List String → ℕ → IngestState → IngestState
  | [], _, st => st
  | c :: cs, pos, st =>
    match embed c with
    | .error _ => { st with aborted := true }
    | .ok emb =>
      ingestChunks embed fileName system subsystem cs (pos + 1)
        { store := st.store ++ [⟨st.nextId, fileName, system, subsystem, c, emb, pos⟩],
          nextId := st.nextId + 1,
          added := st.added + 1,
          aborted := st.aborted }

/-! ## Stable descending sort by score

`Array.prototype.sort((a, b) => b.score - a.score)` is, by the ECMAScript
specification, a stable sort putting higher scores first.  We embed it as
Mathlib's stable `insertionSort` under the relation `scoreGE`. -/

/-- The sort relation of the comparator `(a, b) => b.score - a.score`:
`a` may come before `b` when `a`'s score is at least `b`'s. -/
def scoreGE {α : Type} (a b : α × ℚ) : Prop :=
  b.2 ≤ a.2

instance {α : Type} : DecidableRel (@scoreGE α) :=
  fun a b => inferInstanceAs (Decidable (b.2 ≤ a.2))

instance {α : Type} : IsTotal (α × ℚ) scoreGE :=
  ⟨fun a b => le_total b.2 a.2⟩

instance {α : Type} : IsTrans (α × ℚ) scoreGE :=
  ⟨fun _ _ _ h1 h2 => le_trans h2 h1⟩

/-- The JS stable descending sort on `(record, score)` pairs. -/
def sortScoreDesc {α : Type} (l : List (α × ℚ)) : List (α × ℚ) :=
  l.insertionSort scoreGE

/-! ## The `/ask` selection of src/unnamed/part_000 (lines 282-344)

```js
const candidates = VECTOR_STORE.filter(x => {
  const sysOk = system ? (x.system || "").toLowerCase().includes(system.toLowerCase()) : true;
  const subOk = subsystem ? (x.subsystem || "").toLowerCase().includes(subsystem.toLowerCase()) : true;
  return sysOk && subOk;
});
const scored = candidates.map(c => ({ ...c, score: cosineSim(qEmb, c.embedding) }))
  .sort((a, b) => b.score - a.score)
  .slice(0, Math.min(k, candidates.length));
```
The cosine score of each stored embedding against the query embedding is
abstracted as the function `sim`. -/

/-- The tag filter of `/ask` (`system`/`subsystem` are `""` when absent,
which is falsy, disabling that half of the filter). -/
def askFilter (system subsystem : String) (store : List VItem) : List VItem :=
  store.filter fun x =>
    (if system == "" then true
     else strIncludes (lowerStr x.system) (lowerStr system)) &&
    (if subsystem == "" then true
     else strIncludes (lowerStr x.subsystem) (lowerStr subsystem))

/-- The ranked, truncated selection of `/ask`: filter, score, stable sort
descending, `slice(0, Math.min(k, candidates.length))`. -/
def askScored (sim : List ℚ → ℚ) (k : ℕ) (system subsystem : String)
    (store : List VItem) : List (VItem × ℚ) :=
  let candidates := askFilter system subsystem store
  (sortScoreDesc (candidates.map fun c => (c, sim c.embedding))).take
    (min k candidates.length)

/-- The character-budget property claimed for retrieval (claim C1): the sum
of the lengths of the returned chunk texts never exceeds `maxChars`,
whatever the corpus, query scores, tag filter and `k`. -/
def RespectsCharBudget (maxChars : ℕ) : Prop :=
  ∀ (sim : List ℚ → ℚ) (k : ℕ) (system subsystem : String) (store : List VItem),
    ((askScored sim k system subsystem store).map fun p => p.1.chunk.length).sum
      ≤ maxChars

/-- The `/ask` endpoint's guard structure: `Missing query` (400) when the
query is absent or empty, `Index is empty. Ingest files first.` (400) when
`VECTOR_STORE.length === 0`, otherwise the ranked selection is computed. -/
inductive AskOutcome (α : Type) where
  | badRequest : String → AskOutcome α
  | answered : α → AskOutcome α
deriving DecidableEq

/-- The `/ask` endpoint of src/unnamed/part_000: guards, then the ranked
selection (`sim q` abstracts scoring against the embedding of query `q`). -/
def askEndpoint (sim : String → List ℚ → ℚ) (k : ℕ) (query : Option String)
    (system subsystem : String) (store : List VItem) :
    AskOutcome (List (VItem × ℚ)) :=
  match query with
  | none => .badRequest "Missing query"
  | some q =>
    if q = "" then .badRequest "Missing query"
    else if store.length = 0 then .badRequest "Index is empty. Ingest files first."
    else .answered (askScored (sim q) k system subsystem store)

/-! ## `VertexDB.search` of src/server.js (lines 156-187)

```js
const similarities = this.embeddings.map((embedding, index) => ({
  index, similarity: this.cosineSimilarity(queryEmbedding, embedding),
  document: this.documents[index], metadata: this.metadata[index] }));
let filtered = similarities;
if (filters.system) filtered = filtered.filter(item =>
  item.metadata.system && item.metadata.system.toLowerCase().includes(filters.system.toLowerCase()));
if (filters.subsystem) filtered = filtered.filter(item =>
  item.metadata.subsystem && item.metadata.subsystem.toLowerCase().includes(filters.subsystem.toLowerCase()));
return filtered.sort((a, b) => b.similarity - a.similarity).slice(0, k)
  .map(item => item.document);
```
-/

/-- Metadata of a stored VertexDB document (the fields `search` and the
`sources` assembly read; absent fields are `none`). -/
structure Meta where
  fileName : String
  position : ℕ
  system : Option String
  subsystem : Option String
deriving DecidableEq

/-- A stored VertexDB document. -/
structure StoredDoc where
  text : String
  meta : Meta
deriving DecidableEq

/-- The `filters` argument of `search` (`none` or `some ""` are falsy and
disable that half of the filter, as in `if (filters.system)`). -/
structure SearchFilters where
  system : Option String
  subsystem : Option String
deriving DecidableEq

/-- JS truthiness of an optional string. -/
def jsTruthyStr : Option String → Bool
  | none => false
  | some s => !(s == "")

/-- `item.metadata.system && item.metadata.system.toLowerCase().includes(f.toLowerCase())`. -/
def metaTagMatches (tag : Option String) (f : String) : Bool :=
  match tag with
  | none => false
  | some t => (!(t == "")) && strIncludes (lowerStr t) (lowerStr f)

/-- The two sequential filter passes of `search`. -/
def searchFiltered (filters : SearchFilters) (sims : List (StoredDoc × ℚ)) :
    List (StoredDoc × ℚ) :=
  let f1 :=
    if jsTruthyStr filters.system then
      sims.filter fun p => metaTagMatches p.1.meta.system (filters.system.getD "")
    else sims
  if jsTruthyStr filters.subsystem then
    f1.filter fun p => metaTagMatches p.1.meta.subsystem (filters.subsystem.getD "")
  else f1

/-- The scored-and-filtered list of `search`, before sorting: each stored
document paired with its similarity against the query (abstracted by
`sim`, applied to the stored embedding). -/
def searchSims (sim : List ℚ → ℚ) (filters : SearchFilters)
    (db : List (StoredDoc × List ℚ)) : List (StoredDoc × ℚ) :=
  searchFiltered filters (db.map fun e => (e.1, sim e.2))

/-- `search` up to the `slice(0, k)`, keeping the scores. -/
def searchRanked (sim : List ℚ → ℚ) (k : ℕ) (filters : SearchFilters)
    (db : List (StoredDoc × List ℚ)) : List (StoredDoc × ℚ) :=
  (sortScoreDesc (searchSims sim filters db)).take k

/-- `VertexDB.search`: the ranked list of documents returned to `/ask`. -/
def search (sim : List ℚ → ℚ) (k : ℕ) (filters : SearchFilters)
    (db : List (StoredDoc × List ℚ)) : List StoredDoc :=
  (searchRanked sim k filters db).map fun p => p.1

/-! ## The `sources` assembly of src/server.js `/ask` (lines 766-772)

```js
const sources = results.map((r, i) => ({
  ref: i + 1,
  fileName: r.meta.fileName,
  position: r.meta.position,
  score: Math.random() * 0.2 + 0.8, // Mock score
  preview: r.text.slice(0, 400) + (r.text.length > 400 ? "…" : "")
}));
```
`Math.random()` is embedded as an explicit stream `rand : ℕ → ℚ` of the
values drawn, one per list element; a fresh run of `/ask` draws a fresh
stream. -/

/-- One citation entry of the `/ask` response. -/
structure SourceCit where
  ref : ℕ
  fileName : String
  position : ℕ
  score : ℚ
  preview : String
deriving DecidableEq

/-- `r.text.slice(0, 400) + (r.text.length > 400 ? "…" : "")`. -/
def previewOf (s : String) : String :=
  ⟨s.data.take 400⟩ ++ (if 400 < s.data.length then "…" else "")

/-- The `results.map((r, i) => ...)` loop, with the element index made
explicit. -/
def mkSourcesFrom (rand : ℕ → ℚ) : ℕ → List StoredDoc → List SourceCit
  | _, [] => []
  | i, r :: rs =>
    ⟨i + 1, r.meta.fileName, r.meta.position, rand i * (2 / 10) + 8 / 10,
      previewOf r.text⟩ :: mkSourcesFrom rand (i + 1) rs

/-- The `sources` array of one `/ask` run over retrieval results `results`,
with that run's `Math.random()` draws given by `rand`. -/
def mkSources (rand : ℕ → ℚ) (results : List StoredDoc) : List SourceCit :=
  mkSourcesFrom rand 0 results

/-- The citation data of one source entry without its (randomized) score:
reference number, document name, position, preview. -/
def stripScore (s : SourceCit) : ℕ × String × ℕ × String :=
  (s.ref, s.fileName, s.position, s.preview)

/-! ## Concrete fixtures used by counterexamples and witnesses -/

/-- An embedding oracle that fails exactly on the chunk `"b"`. -/
def embedFailB : String → Except String (List ℚ) :=
  fun c => if c = "b" then .error "Gemini embed error 500" else .ok [1]

/-- A store holding one chunk of six characters. -/
def oneChunkStore : List VItem :=
  [⟨1, "f", "", "", "aaaaaa", [0], 0⟩]

/-- One stored VertexDB document. -/
def docHello : StoredDoc :=
  ⟨"hello", ⟨"doc.txt", 0, none, none⟩⟩

/-- The retrieval results of a `/ask` run over an index holding `docHello`. -/
def resultsHello : List StoredDoc :=
  search (fun _ => 1) 12 ⟨none, none⟩ [(docHello, [1])]

/-- The adjacency relation of a collapsed string: a whitespace character is
never followed by another whitespace character. -/
def wsChainRel (a b : ℕ) : Prop :=
  jsWs a = true → jsWs b = false

/-! ## Lemmas about the normalizer -/

theorem collapseWsGo_mem {b : Bool} {l : List ℕ} {c : ℕ}
    (h : c ∈ collapseWsGo b l) : c = 32 ∨ (c ∈ l ∧ jsWs c = false) := by
  induction l generalizing b with
  | nil => simp [collapseWsGo] at h
  | cons d ds ih =>
    by_cases hd : jsWs d
    · cases b with
      | true =>
        rw [collapseWsGo, if_pos hd, if_pos rfl] at h
        rcases ih h with h32 | ⟨hm, hw⟩
        · exact Or.inl h32
        · exact Or.inr ⟨mem_cons_of_mem _ hm, hw⟩
      | false =>
        rw [collapseWsGo, if_pos hd, if_neg (by simp)] at h
        rcases mem_cons.mp h with rfl | h'
        · exact Or.inl rfl
        · rcases ih h' with h32 | ⟨hm, hw⟩
          · exact Or.inl h32
          · exact Or.inr ⟨mem_cons_of_mem _ hm, hw⟩
    · rw [collapseWsGo, if_neg hd] at h
      rcases mem_cons.mp h with rfl | h'
      · exact Or.inr ⟨mem_cons_self _ _, by simpa using hd⟩
      · rcases ih h' with h32 | ⟨hm, hw⟩
        · exact Or.inl h32
        · exact Or.inr ⟨mem_cons_of_mem _ hm, hw⟩

theorem collapseWsGo_true_head : ∀ {l : List ℕ} {h : ℕ} {t : List ℕ},
    collapseWsGo true l = h :: t → jsWs h = false := by
  intro l
  induction l with
  | nil => intro h t he; simp [collapseWsGo] at he
  | cons d ds ih =>
    intro h t he
    by_cases hd : jsWs d
    · rw [collapseWsGo, if_pos hd, if_pos rfl] at he
      exact ih he
    · rw [collapseWsGo, if_neg hd] at he
      rw [← (cons_eq_cons.mp he).1]
      simpa using hd

theorem collapseWsGo_chain (b : Bool) (l : List ℕ) :
    Chain' wsChainRel (collapseWsGo b l) := by
  induction l generalizing b with
  | nil => simp [collapseWsGo]
  | cons d ds ih =>
    by_cases hd : jsWs d
    · cases b with
      | true =>
        rw [collapseWsGo, if_pos hd, if_pos rfl]
        exact ih true
      | false =>
        rw [collapseWsGo, if_pos hd, if_neg (by simp)]
        refine chain'_cons'.mpr ⟨?_, ih true⟩
        intro h hh _
        cases hgo : collapseWsGo true ds with
        | nil => rw [hgo] at hh; simp at hh
        | cons x xs =>
          rw [hgo] at hh
          simp only [head?_cons, Option.mem_def, Option.some.injEq] at hh
          rw [← hh]
          exact collapseWsGo_true_head hgo
    · rw [collapseWsGo, if_neg hd]
      refine chain'_cons'.mpr ⟨?_, ih false⟩
      intro h hh hws
      exact absurd hws hd

theorem collapseWs_of_collapsed : ∀ l : List ℕ,
    (∀ c ∈ l, jsWs c = true → c = 32) → Chain' wsChainRel l →
    collapseWs l = l := by
  intro l
  induction l with
  | nil => intro _ _; rfl
  | cons d ds ih =>
    intro h32 hch
    by_cases hd : jsWs d
    · have hd32 : d = 32 := h32 d (mem_cons_self _ _) hd
      have hds : collapseWsGo true ds = collapseWsGo false ds := by
        cases ds with
        | nil => rfl
        | cons e es =>
          have he : jsWs e = false := (chain'_cons.mp hch).1 hd
          rw [collapseWsGo, collapseWsGo, if_neg (by simp [he]), if_neg (by simp [he])]
      have htl : collapseWs ds = ds :=
        ih (fun c hc => h32 c (mem_cons_of_mem _ hc)) hch.tail
      unfold collapseWs at htl ⊢
      rw [collapseWsGo, if_pos hd, if_neg (by simp), hds, htl, hd32]
    · have htl : collapseWs ds = ds :=
        ih (fun c hc => h32 c (mem_cons_of_mem _ hc)) hch.tail
      unfold collapseWs at htl ⊢
      rw [collapseWsGo, if_neg hd, htl]

theorem dropWhileHeadFalse (p : ℕ → Bool) : ∀ (l : List ℕ) (h t : _),
    l.dropWhile p = h :: t → p h = false := by
  intro l
  induction l with
  | nil => intro h t he; simp at he
  | cons c cs ih =>
    intro h t he
    by_cases hc : p c
    · rw [dropWhile_cons, if_pos hc] at he
      exact ih _ _ he
    · rw [dropWhile_cons, if_neg hc] at he
      rw [← (cons_eq_cons.mp he).1]
      simpa using hc

theorem dropWhileIdOfHead (p : ℕ → Bool) :
    ∀ l : List ℕ, (∀ h t, l = h :: t → p h = false) → l.dropWhile p = l := by
  intro l hl
  cases l with
  | nil => rfl
  | cons c cs => rw [dropWhile_cons, if_neg (by simp [hl c cs rfl])]

theorem trimWs_sublist (l : List ℕ) : trimWs l <+ l := by
  unfold trimWs
  have h2 : ((l.dropWhile jsWs).reverse.dropWhile jsWs) <+ (l.dropWhile jsWs).reverse :=
    dropWhile_sublist jsWs
  have h3 := h2.reverse
  rw [reverse_reverse] at h3
  exact h3.trans (dropWhile_sublist jsWs)

theorem trimWs_within (l : List ℕ) : trimWs l <:+: l := by
  unfold trimWs
  have h2 : ((l.dropWhile jsWs).reverse.dropWhile jsWs) <:+ (l.dropWhile jsWs).reverse :=
    dropWhile_suffix jsWs
  have hpre := reverse_prefix.mpr h2
  rw [reverse_reverse] at hpre
  exact hpre.isInfix.trans (dropWhile_suffix jsWs).isInfix

theorem trimWs_head_false (l : List ℕ) : ∀ h t, trimWs l = h :: t → jsWs h = false := by
  intro h t he
  have hpre : trimWs l <+: l.dropWhile jsWs := by
    unfold trimWs
    have h2 : ((l.dropWhile jsWs).reverse.dropWhile jsWs) <:+ (l.dropWhile jsWs).reverse :=
      dropWhile_suffix jsWs
    have hpre := reverse_prefix.mpr h2
    rwa [reverse_reverse] at hpre
  obtain ⟨r, hr⟩ := hpre
  rw [he] at hr
  exact dropWhileHeadFalse jsWs l h (t ++ r) hr.symm

theorem trimWs_getLast_false (l : List ℕ) :
    ∀ h t, (trimWs l).reverse = h :: t → jsWs h = false := by
  intro h t he
  unfold trimWs at he
  rw [reverse_reverse] at he
  exact dropWhileHeadFalse jsWs _ h t he

theorem trimWs_trimmed (l : List ℕ)
    (hh : ∀ h t, l = h :: t → jsWs h = false)
    (hl : ∀ h t, l.reverse = h :: t → jsWs h = false) :
    trimWs l = l := by
  unfold trimWs
  rw [dropWhileIdOfHead jsWs l hh, dropWhileIdOfHead jsWs l.reverse hl, reverse_reverse]

/-- C3: the text normalizer is idempotent: for every string, including
strings with embedded control characters and mixed whitespace,
`sanitizeContent (sanitizeContent x) = sanitizeContent x`. -/
theorem sanitizeContent_idempotent (l : List ℕ) :
    sanitizeContent (sanitizeContent l) = sanitizeContent l := by
  set y := sanitizeContent l with hy
  have hsub : ∀ c ∈ y, c ∈ collapseWs (l.filter keptChar) := by
    intro c hc
    exact (trimWs_sublist _).subset hc
  have hkept : ∀ c ∈ y, keptChar c = true := by
    intro c hc
    rcases collapseWsGo_mem (hsub c hc) with h32 | ⟨hm, _⟩
    · rw [h32]; rfl
    · exact of_mem_filter hm
  have h32 : ∀ c ∈ y, jsWs c = true → c = 32 := by
    intro c hc hw
    rcases collapseWsGo_mem (hsub c hc) with h | ⟨_, hww⟩
    · exact h
    · rw [hw] at hww; cases hww
  have hch : Chain' wsChainRel y :=
    List.Chain'.infix (collapseWsGo_chain false _) (trimWs_within _)
  show sanitizeContent y = y
  unfold sanitizeContent
  rw [filter_eq_self.mpr hkept, collapseWs_of_collapsed y h32 hch, hy]
  unfold sanitizeContent
  exact trimWs_trimmed _ (trimWs_head_false _) (trimWs_getLast_false _)

/-- C10: every character of `sanitizeContent`'s output lies in the printable
ASCII range 0x20-0x7E: every non-ASCII character (and every control
character) is deleted by the first `replace`, before whitespace runs are
collapsed, and the kept LF/CR/TAB characters are whitespace and are
therefore collapsed to spaces or trimmed away. -/
theorem sanitizeContent_printable (l : List ℕ) (c : ℕ)
    (hc : c ∈ sanitizeContent l) : 32 ≤ c ∧ c ≤ 126 := by
  have hc' : c ∈ collapseWs (l.filter keptChar) := (trimWs_sublist _).subset hc
  rcases collapseWsGo_mem hc' with h32 | ⟨hm, hw⟩
  · omega
  · have hk : keptChar c = true := of_mem_filter hm
    simp only [keptChar, Bool.or_eq_true, Bool.and_eq_true, decide_eq_true_eq,
      beq_iff_eq] at hk
    simp only [jsWs, Bool.or_eq_true, Bool.and_eq_true, decide_eq_true_eq,
      beq_iff_eq, Bool.or_eq_false_iff, Bool.and_eq_false_iff,
      decide_eq_false_iff_not, beq_eq_false_iff_ne, ne_eq] at hw
    omega

/-- C10 (witness): `97` is a character of `sanitizeContent [97, 9, 233, 98]`
and lies in the printable range. -/
theorem sanitizeContent_printable_w :
    (97 ∈ sanitizeContent [97, 9, 233, 98]) ∧ (32 ≤ 97 ∧ 97 ≤ 126) :=
  ⟨by decide, sanitizeContent_printable [97, 9, 233, 98] 97 (by decide)⟩

/-- C4 (counterexample): calling `sanitizeContent` on an `undefined`
argument does not return the empty string: the member access
`text.replace` throws a `TypeError`. -/
theorem sanitizeContent_undefined_cex :
    sanitizeContentCall .undef
      = .error "TypeError: Cannot read properties of undefined"
    ∧ sanitizeContentCall .undef ≠ .ok [] := by
  exact ⟨rfl, by simp [sanitizeContentCall]⟩

/-- C4 (amended): `sanitizeContent` on the empty string returns the empty
string without an error; on an `undefined` argument it throws a
`TypeError` (there is no guard for a missing argument). -/
theorem sanitizeContent_empty_and_undefined :
    sanitizeContentCall (.str []) = .ok []
    ∧ sanitizeContentCall .undef
      = .error "TypeError: Cannot read properties of undefined" :=
  ⟨rfl, rfl⟩

/-! ## Lemmas about the chunker -/

theorem chunkTextAux_eq_specAux (text : List Char) (size overlap : ℕ) :
    ∀ fuel i, chunkTextAux text size overlap i fuel
      = specChunksAux text size overlap i fuel := by
  intro fuel
  induction fuel with
  | zero => intro i; rfl
  | succ n ih =>
    intro i
    by_cases hi : i < text.length
    · by_cases hs : text.length ≤ i + size
      · have hmin : min (i + size) text.length = text.length := min_eq_right hs
        have hsl : sliceJS text i (i + size) = sliceJS text i text.length := by
          unfold sliceJS
          rw [take_of_length_le hs, take_length]
        simp [chunkTextAux, specChunksAux, hi, hmin, hs, hsl]
      · have hlt : i + size < text.length := lt_of_not_le hs
        have hmin : min (i + size) text.length = i + size := min_eq_left hlt.le
        have hne : ¬(i + size = text.length) := ne_of_lt hlt
        simp [chunkTextAux, specChunksAux, hi, hmin, hs, hne, ih]
    · simp [chunkTextAux, specChunksAux, hi]

/-- C2: for `0 ≤ overlap < size`, `chunkText` produces exactly the sequence
described by the specification (`specChunks`: offset 0, chunks
`text[offset : offset+size]`, next offset `offset + size - overlap` clamped
to never go negative, stopping with the chunk whose end equals the text
length); empty text yields zero chunks, and nonempty text no longer than
`size` yields exactly one chunk equal to the whole text. -/
theorem chunkText_matches_spec (text : List Char) (size overlap : ℕ)
    (hov : overlap < size) :
    chunkText text size overlap = specChunks text size overlap
    ∧ chunkText [] size overlap = []
    ∧ (0 < text.length → text.length ≤ size →
        chunkText text size overlap = [text]) := by
  refine ⟨chunkTextAux_eq_specAux text size overlap _ _, rfl, ?_⟩
  intro hpos hle
  have _hov := hov
  cases hL : text.length with
  | zero => omega
  | succ m =>
    have hmin : min (0 + size) text.length = text.length :=
      min_eq_right (by omega)
    have hsl : sliceJS text 0 text.length = text := by
      unfold sliceJS
      rw [take_length, drop_zero]
    unfold chunkText
    rw [hL]
    rw [show chunkTextAux text size overlap 0 (m + 1)
        = if 0 < text.length then
            if min (0 + size) text.length = text.length then
              [sliceJS text 0 (min (0 + size) text.length)]
            else sliceJS text 0 (min (0 + size) text.length) ::
              chunkTextAux text size overlap (min (0 + size) text.length - overlap) m
          else [] from rfl]
    rw [hmin]
    simp [hpos, hsl]

/-- C2 (witness): `chunkText` on the eight-character text `"abcdefgh"` with
size 5 and overlap 2 satisfies every conjunct, discharging `2 < 5`. -/
theorem chunkText_matches_spec_w :
    (2 : ℕ) < 5
    ∧ (chunkText "abcdefgh".data 5 2 = specChunks "abcdefgh".data 5 2
      ∧ chunkText ([] : List Char) 5 2 = []
      ∧ (0 < "abcdefgh".data.length → "abcdefgh".data.length ≤ 5 →
          chunkText "abcdefgh".data 5 2 = ["abcdefgh".data])) :=
  ⟨by decide, chunkText_matches_spec "abcdefgh".data 5 2 (by decide)⟩

/-! ## Lemmas about the store id counter -/

theorem runTrace_store_pairwise : ∀ (ops : List StoreOp) (store : List VItem) (n : ℕ),
    Pairwise (· < ·) (store.map fun v => v.id) →
    (∀ i ∈ store.map fun v => v.id, i < n) →
    Pairwise (· < ·) (((runTrace (store, n) ops).1.1).map fun v => v.id) := by
  intro ops
  induction ops with
  | nil => intro store n h1 _; exact h1
  | cons op ops ih =>
    intro store n h1 h2
    cases op with
    | add c =>
      show Pairwise _
        (((runTrace (store ++ [mkVItem n c], n + 1) ops).1.1).map fun v => v.id)
      apply ih
      · rw [map_append, pairwise_append]
        refine ⟨h1, pairwise_singleton _ _, ?_⟩
        intro a ha b hb
        simp only [mkVItem, map_cons, map_nil, mem_singleton] at hb
        rw [hb]
        exact h2 a ha
      · intro i hi
        rw [map_append] at hi
        rcases mem_append.mp hi with h | h
        · exact lt_trans (h2 i h) (Nat.lt_succ_self n)
        · simp only [mkVItem, map_cons, map_nil, mem_singleton] at h
          omega
    | clear =>
      show Pairwise _ (((runTrace ([], 1) ops).1.1).map fun v => v.id)
      apply ih
      · simp
      · simp

theorem runTrace_trace_lower : ∀ (ops : List StoreOp) (store : List VItem) (n : ℕ),
    StoreOp.clear ∉ ops → ∀ i ∈ (runTrace (store, n) ops).2, n ≤ i := by
  intro ops
  induction ops with
  | nil => intro store n _ i hi; simp [runTrace] at hi
  | cons op ops ih =>
    intro store n hcl i hi
    cases op with
    | add c =>
      simp only [runTrace] at hi
      rcases mem_cons.mp hi with rfl | h
      · exact le_refl i
      · have := ih (store ++ [mkVItem n c]) (n + 1) (fun hc => hcl (mem_cons_of_mem _ hc)) i h
        omega
    | clear => exact absurd (mem_cons_self _ _) hcl

theorem runTrace_trace_pairwise : ∀ (ops : List StoreOp) (store : List VItem) (n : ℕ),
    StoreOp.clear ∉ ops → Pairwise (· < ·) ((runTrace (store, n) ops).2) := by
  intro ops
  induction ops with
  | nil => intro store n _; simp [runTrace]
  | cons op ops ih =>
    intro store n hcl
    cases op with
    | add c =>
      show Pairwise (· < ·) (n :: (runTrace (store ++ [mkVItem n c], n + 1) ops).2)
      refine pairwise_cons.mpr ⟨?_, ih _ _ (fun hc => hcl (mem_cons_of_mem _ hc))⟩
      intro i hi
      have := runTrace_trace_lower ops (store ++ [mkVItem n c]) (n + 1)
        (fun hc => hcl (mem_cons_of_mem _ hc)) i hi
      omega
    | clear => exact absurd (mem_cons_self _ _) hcl

/-- C7 (counterexample): after `add "a"; clear; add "b"` the lifetime id
trace is `[1, 1]`: the id 1 assigned before the clear is reused for the
first chunk added after it (the `/clear` endpoint resets `NEXT_ID = 1`). -/
theorem id_reuse_after_clear_cex :
    assignedIds [StoreOp.add "a", StoreOp.clear, StoreOp.add "b"] = [1, 1]
    ∧ ¬ (assignedIds [StoreOp.add "a", StoreOp.clear, StoreOp.add "b"]).Nodup := by
  exact ⟨rfl, by decide⟩

/-- C7 (amended): the ids assigned over the store's lifetime are strictly
increasing (hence unique) as long as no clear occurs; independently, the ids
of the records currently in the store are strictly increasing (hence unique)
after any operation sequence, clears included.  A clear resets the id
counter to 1, so lifetime uniqueness does not survive a clear. -/
theorem store_ids_unique_monotone (ops : List StoreOp)
    (h : StoreOp.clear ∉ ops) :
    Pairwise (· < ·) (assignedIds ops)
    ∧ ∀ ops2 : List StoreOp,
        Pairwise (· < ·)
          (((runTrace (([], 1) : List VItem × ℕ) ops2).1.1).map fun v => v.id) := by
  constructor
  · exact runTrace_trace_pairwise ops [] 1 h
  · intro ops2
    exact runTrace_store_pairwise ops2 [] 1 (by simp) (by simp)

/-- C7 (witness): two adds with no clear produce the strictly increasing id
trace, discharging the no-clear hypothesis at `[add "a", add "b"]`. -/
theorem store_ids_unique_monotone_w :
    StoreOp.clear ∉ [StoreOp.add "a", StoreOp.add "b"]
    ∧ (Pairwise (· < ·) (assignedIds [StoreOp.add "a", StoreOp.add "b"])
      ∧ ∀ ops2 : List StoreOp,
          Pairwise (· < ·)
            (((runTrace (([], 1) : List VItem × ℕ) ops2).1.1).map fun v => v.id)) :=
  ⟨by decide, store_ids_unique_monotone [StoreOp.add "a", StoreOp.add "b"] (by decide)⟩

/-! ## The ingest loop on an embedding failure (claim C6) -/

/-- C6 (counterexample): with an embedding oracle failing exactly on the
middle chunk `"b"`, ingesting `["a", "b", "c"]` aborts: only `"a"` ends up
in the store, the later chunk `"c"` is not processed (the failure is not
scoped to the failing chunk), and the request errors instead of reporting
an added count. -/
theorem ingest_not_scoped_cex :
    (ingestChunks embedFailB "f" "" "" ["a", "b", "c"] 0 ⟨[], 1, 0, false⟩).aborted = true
    ∧ ((ingestChunks embedFailB "f" "" "" ["a", "b", "c"] 0 ⟨[], 1, 0, false⟩).store.map
        fun v => v.chunk) = ["a"]
    ∧ ((ingestChunks embedFailB "f" "" "" ["a", "b", "c"] 0 ⟨[], 1, 0, false⟩).store.map
        fun v => v.chunk) ≠ ["a", "c"] := by
  exact ⟨rfl, rfl, by decide⟩

/-- C6 (amended): an embedding failure during the `/ingest` chunk loop
aborts the whole batch: the chunks before the failing one are stored and
counted, the failing chunk and every later chunk are excluded, and the
request ends in the error path (HTTP 500) instead of reporting an added
count. -/
theorem ingest_abort_on_embed_failure (embed : String → Except String (List ℚ))
    (fileName system subsystem : String) (bad : String) (post : List String) :
    ∀ (pre : List String) (pos : ℕ) (st : IngestState),
    (∀ x ∈ pre, ∃ v, embed x = .ok v) →
    (∃ e, embed bad = .error e) →
    st.aborted = false →
    (ingestChunks embed fileName system subsystem (pre ++ bad :: post) pos st).aborted = true
    ∧ ((ingestChunks embed fileName system subsystem (pre ++ bad :: post) pos st).store.map
        fun v => v.chunk) = (st.store.map fun v => v.chunk) ++ pre
    ∧ (ingestChunks embed fileName system subsystem (pre ++ bad :: post) pos st).added
        = st.added + pre.length := by
  intro pre
  induction pre with
  | nil =>
    intro pos st _ hbad _
    obtain ⟨e, he⟩ := hbad
    simp [ingestChunks, he]
  | cons a as ih =>
    intro pos st hpre hbad hst
    obtain ⟨v, hv⟩ := hpre a (mem_cons_self _ _)
    have hstep :
        ingestChunks embed fileName system subsystem ((a :: as) ++ bad :: post) pos st
          = ingestChunks embed fileName system subsystem (as ++ bad :: post) (pos + 1)
            { store := st.store ++ [⟨st.nextId, fileName, system, subsystem, a, v, pos⟩],
              nextId := st.nextId + 1, added := st.added + 1, aborted := st.aborted } := by
      show ingestChunks embed fileName system subsystem (a :: (as ++ bad :: post)) pos st = _
      rw [ingestChunks, hv]
    rw [hstep]
    have hres := ih (pos + 1)
      { store := st.store ++ [⟨st.nextId, fileName, system, subsystem, a, v, pos⟩],
        nextId := st.nextId + 1, added := st.added + 1, aborted := st.aborted }
      (fun x hx => hpre x (mem_cons_of_mem _ hx)) hbad (by simpa using hst)
    refine ⟨hres.1, ?_, ?_⟩
    · rw [hres.2.1]
      simp
    · rw [hres.2.2]
      simp only [length_cons]
      omega

/-- C6 (amended, witness): the amended theorem applied at the concrete
oracle `embedFailB` with `pre = ["a"]`, `bad = "b"`, `post = ["c"]`. -/
theorem ingest_abort_on_embed_failure_w :
    (∀ x ∈ ["a"], ∃ v, embedFailB x = .ok v)
    ∧ ((ingestChunks embedFailB "f" "" "" (["a"] ++ "b" :: ["c"]) 0 ⟨[], 1, 0, false⟩).aborted = true
      ∧ ((ingestChunks embedFailB "f" "" "" (["a"] ++ "b" :: ["c"]) 0 ⟨[], 1, 0, false⟩).store.map
          fun v => v.chunk) = ((⟨[], 1, 0, false⟩ : IngestState).store.map fun v => v.chunk) ++ ["a"]
      ∧ (ingestChunks embedFailB "f" "" "" (["a"] ++ "b" :: ["c"]) 0 ⟨[], 1, 0, false⟩).added
          = (⟨[], 1, 0, false⟩ : IngestState).added + (["a"] : List String).length) := by
  have hpre : ∀ x ∈ (["a"] : List String), ∃ v, embedFailB x = .ok v := by
    intro x hx
    rw [eq_of_mem_singleton hx]
    exact ⟨[1], rfl⟩
  exact ⟨hpre, ingest_abort_on_embed_failure embedFailB "f" "" "" "b" ["c"] ["a"] 0
    ⟨[], 1, 0, false⟩ hpre ⟨"Gemini embed error 500", rfl⟩ rfl⟩

/-! ## The `/ask` guard on an empty index (claim C8) -/

theorem runTrace_append_clear : ∀ (ops : List StoreOp) (st : List VItem × ℕ),
    (runTrace st (ops ++ [StoreOp.clear])).1 = ([], 1) := by
  intro ops
  induction ops with
  | nil =>
    intro st
    cases st
    rfl
  | cons op ops ih =>
    intro st
    cases st with
    | mk store n =>
      cases op with
      | add c =>
        show (runTrace (store ++ [mkVItem n c], n + 1) (ops ++ [StoreOp.clear])).1 = _
        exact ih _
      | clear =>
        show (runTrace ([], 1) (ops ++ [StoreOp.clear])).1 = _
        exact ih _

/-- C8: a nonempty query against an empty index — in particular against the
store left by any operation sequence ending in a clear — is answered with
the defined 400-style error `Index is empty. Ingest files first.`, not with
results and not by crashing. -/
theorem ask_empty_index_rejected (sim : String → List ℚ → ℚ) (k : ℕ)
    (q system subsystem : String) (ops : List StoreOp) (hq : q ≠ "") :
    askEndpoint sim k (some q) system subsystem []
      = .badRequest "Index is empty. Ingest files first."
    ∧ askEndpoint sim k (some q) system subsystem
        ((runTrace (([], 1) : List VItem × ℕ) (ops ++ [StoreOp.clear])).1.1)
      = .badRequest "Index is empty. Ingest files first." := by
  refine ⟨by simp [askEndpoint, hq], ?_⟩
  rw [runTrace_append_clear]
  simp [askEndpoint, hq]

/-- C8 (witness): the guard fires for the query `"x"` after ingesting one
chunk and clearing, discharging `"x" ≠ ""`. -/
theorem ask_empty_index_rejected_w :
    ("x" : String) ≠ ""
    ∧ (askEndpoint (fun _ _ => 0) 12 (some "x") "" "" []
        = .badRequest "Index is empty. Ingest files first."
      ∧ askEndpoint (fun _ _ => 0) 12 (some "x") "" ""
          ((runTrace (([], 1) : List VItem × ℕ) ([StoreOp.add "a"] ++ [StoreOp.clear])).1.1)
        = .badRequest "Index is empty. Ingest files first.") :=
  ⟨by decide, ask_empty_index_rejected (fun _ _ => 0) 12 "x" "" "" [StoreOp.add "a"] (by decide)⟩

/-! ## Retrieval budget (claim C1) -/

/-- C1 (counterexample): retrieval enforces no character budget.  With the
one-record corpus `oneChunkStore` (a single six-character chunk) and the
default `k`, the selection returns the chunk, so the summed length 6 of the
returned texts exceeds the budget `maxChars = 5`; the code has no
`runningCharacterTotal` at all. -/
theorem no_char_budget_cex : ¬ RespectsCharBudget 5 := by
  intro h
  have h6 := h (fun _ => 0) 12 "" "" oneChunkStore
  have hv : ((askScored (fun _ => 0) 12 "" "" oneChunkStore).map
      fun p => p.1.chunk.length).sum = 6 := by decide
  omega

/-- C1 (amended): the `/ask` selection respects the chunk-count bound: it
returns at most `k` chunks (via `slice(0, Math.min(k, candidates.length))`);
no character budget is enforced. -/
theorem askScored_count_bound (sim : List ℚ → ℚ) (k : ℕ)
    (system subsystem : String) (store : List VItem) :
    (askScored sim k system subsystem store).length ≤ k := by
  simp only [askScored, length_take]
  omega

/-! ## Sortedness, prefix monotonicity and stability of `search` (claim C5) -/

theorem filter_orderedInsert {α : Type} (c : ℚ) (x : α × ℚ) :
    ∀ m : List (α × ℚ),
    (List.orderedInsert scoreGE x m).filter (fun p => decide (p.2 = c))
      = if x.2 = c then x :: m.filter (fun p => decide (p.2 = c))
        else m.filter (fun p => decide (p.2 = c)) := by
  intro m
  induction m with
  | nil =>
    by_cases hx : x.2 = c <;> simp [List.orderedInsert, filter_cons, hx]
  | cons y ys ih =>
    rw [List.orderedInsert]
    by_cases hxy : scoreGE x y
    · rw [if_pos hxy]
      by_cases hx : x.2 = c <;> by_cases hy : y.2 = c <;>
        simp [filter_cons, hx, hy]
    · rw [if_neg hxy]
      have hlt : x.2 < y.2 := lt_of_not_le hxy
      by_cases hy : y.2 = c
      · by_cases hx : x.2 = c
        · exfalso
          rw [hx, hy] at hlt
          exact lt_irrefl c hlt
        · simp [filter_cons, hy, hx, ih]
      · by_cases hx : x.2 = c <;> simp [filter_cons, hy, hx, ih]

theorem filter_sortScoreDesc {α : Type} (c : ℚ) : ∀ l : List (α × ℚ),
    (sortScoreDesc l).filter (fun p => decide (p.2 = c))
      = l.filter (fun p => decide (p.2 = c)) := by
  intro l
  induction l with
  | nil => rfl
  | cons x xs ih =>
    show (List.orderedInsert scoreGE x (sortScoreDesc xs)).filter _ = _
    rw [filter_orderedInsert]
    by_cases hx : x.2 = c
    · rw [if_pos hx, ih]
      simp [filter_cons, hx]
    · rw [if_neg hx, ih]
      simp [filter_cons, hx]

/-- C5: for every stored collection, scoring function, tag filter and pair
of limits `k1 ≤ k2`: the ranked result is sorted non-increasing by score;
the `k1` result is a prefix of the `k2` result; and the sort is stable (for
each score value, the records carrying that score appear in exactly their
original insertion order), so results are deterministic for deterministic
inputs. -/
theorem search_sorted_prefix_stable (sim : List ℚ → ℚ) (k1 k2 : ℕ)
    (filters : SearchFilters) (db : List (StoredDoc × List ℚ))
    (h : k1 ≤ k2) :
    List.Sorted scoreGE (searchRanked sim k1 filters db)
    ∧ (∃ t, search sim k2 filters db = search sim k1 filters db ++ t)
    ∧ ∀ c : ℚ,
        (sortScoreDesc (searchSims sim filters db)).filter (fun p => decide (p.2 = c))
          = (searchSims sim filters db).filter (fun p => decide (p.2 = c)) := by
  refine ⟨?_, ?_, fun c => filter_sortScoreDesc c _⟩
  · exact Pairwise.sublist (take_sublist k1 _) (sorted_insertionSort scoreGE _)
  · refine ⟨(((sortScoreDesc (searchSims sim filters db)).take k2).drop k1).map
      (fun p => p.1), ?_⟩
    have hk : (sortScoreDesc (searchSims sim filters db)).take k1
        = ((sortScoreDesc (searchSims sim filters db)).take k2).take k1 := by
      rw [take_take, min_eq_left h]
    unfold search searchRanked
    rw [hk, ← map_append, take_append_drop]

/-- C5 (witness): the theorem applied to a concrete two-record corpus with
`k1 = 1 ≤ 2 = k2`. -/
theorem search_sorted_prefix_stable_w :
    (1 : ℕ) ≤ 2
    ∧ (List.Sorted scoreGE (searchRanked (fun e => e.headD 0) 1 ⟨none, none⟩
        [(⟨"t1", ⟨"f1", 0, none, none⟩⟩, [1]), (⟨"t2", ⟨"f2", 1, none, none⟩⟩, [3])])
      ∧ (∃ t, search (fun e => e.headD 0) 2 ⟨none, none⟩
            [(⟨"t1", ⟨"f1", 0, none, none⟩⟩, [1]), (⟨"t2", ⟨"f2", 1, none, none⟩⟩, [3])]
          = search (fun e => e.headD 0) 1 ⟨none, none⟩
              [(⟨"t1", ⟨"f1", 0, none, none⟩⟩, [1]), (⟨"t2", ⟨"f2", 1, none, none⟩⟩, [3])] ++ t)
      ∧ ∀ c : ℚ,
          (sortScoreDesc (searchSims (fun e => e.headD 0) ⟨none, none⟩
            [(⟨"t1", ⟨"f1", 0, none, none⟩⟩, [1]), (⟨"t2", ⟨"f2", 1, none, none⟩⟩, [3])])).filter
              (fun p => decide (p.2 = c))
            = (searchSims (fun e => e.headD 0) ⟨none, none⟩
                [(⟨"t1", ⟨"f1", 0, none, none⟩⟩, [1]), (⟨"t2", ⟨"f2", 1, none, none⟩⟩, [3])]).filter
                (fun p => decide (p.2 = c))) :=
  ⟨by decide, search_sorted_prefix_stable (fun e => e.headD 0) 1 2 ⟨none, none⟩
    [(⟨"t1", ⟨"f1", 0, none, none⟩⟩, [1]), (⟨"t2", ⟨"f2", 1, none, none⟩⟩, [3])] (by decide)⟩

/-! ## Citation determinism across runs (claim C9) -/

/-- C9 (counterexample): two `/ask` runs over the unchanged one-document
index `resultsHello` with different `Math.random()` draws (all-0 versus
all-1/2) produce different `sources` arrays: the reported scores are fresh
random values each run (`Math.random() * 0.2 + 0.8`, the "Mock score"),
so the citation output is not identical across the two runs. -/
theorem ask_sources_random_score_cex :
    mkSources (fun _ => 0) resultsHello ≠ mkSources (fun _ => 1 / 2) resultsHello := by
  have hres : resultsHello = [docHello] := rfl
  intro h
  rw [hres] at h
  simp only [mkSources, mkSourcesFrom, cons.injEq, SourceCit.mk.injEq, and_true,
    true_and] at h
  norm_num at h

/-- C9 (amended): across any two runs over the same retrieval results, the
citation data other than the score — reference number (rank order), document
name, position and preview — is identical; only the mock score field varies
with the run's random draws. -/
theorem ask_sources_pairs_deterministic (rand1 rand2 : ℕ → ℚ)
    (results : List StoredDoc) :
    (mkSources rand1 results).map stripScore
      = (mkSources rand2 results).map stripScore := by
  unfold mkSources
  have hgen : ∀ (rs : List StoredDoc) (i : ℕ),
      (mkSourcesFrom rand1 i rs).map stripScore
        = (mkSourcesFrom rand2 i rs).map stripScore := by
    intro rs
    induction rs with
    | nil => intro i; rfl
    | cons r rest ih =>
      intro i
      rw [mkSourcesFrom, mkSourcesFrom, map_cons, map_cons, ih (i + 1)]
      rfl
  exact hgen results 0
